import Mathlib

/-!
Verification of the derivatives analytics and portfolio risk engine of an
options trading system (jax_engine.py and the risk monitor module).

Modelling conventions: Python float arithmetic is idealised as real
arithmetic; JAX arrays become lists of reals and elementwise array
operations become map / zipWith; dictionary lookups that can raise KeyError
become Option-valued field reads; the catch-all exception handlers become an
Option-valued core computation whose none case yields the documented neutral
default; automatic differentiation of the pricing formula becomes the
mathematical derivative (deriv); the normal draws produced by the fixed-seed
PRNG are abstracted as an explicit list of sample values supplied to the
Monte Carlo estimator. Where the rank discipline of jax.vmap decides
behavior, arrays carry their rank (JaxArray): vmap with the default
in_axes=0 maps every leaf along axis 0 and raises ValueError on a rank-0
leaf, modelled by an Option result.
-/

/-- Standard normal cumulative distribution function, the meaning of
jax.scipy.stats.norm.cdf. -/
noncomputable def normCdf (x : ℝ) : ℝ :=
  (∫ t in Set.Iic x, Real.exp (-(t ^ 2) / 2)) / Real.sqrt (2 * Real.pi)

/-- Black-Scholes price of one European contract, the formula of
bs_price_single in jax_engine.py (no clamping here; the caller clamps first):
d1 and d2 as in the source, optType 1.0 selects the call branch of jnp.where,
any other value the put branch. -/
noncomputable def bsPriceRaw (S K T r sigma optType : ℝ) : ℝ :=
  let d1 := (Real.log (S / K) + (r + 0.5 * sigma ^ 2) * T) / (sigma * Real.sqrt T)
  let d2 := d1 - sigma * Real.sqrt T
  if optType = 1 then S * normCdf d1 - K * Real.exp (-r * T) * normCdf d2
  else K * Real.exp (-r * T) * normCdf (-d2) - S * normCdf (-d1)

/-- Scalar Black-Scholes price including the safety clamps of
_black_scholes_with_greeks: T and sigma are floored at 1e-5 before the
formula is evaluated. -/
noncomputable def bsPrice (S K T r sigma optType : ℝ) : ℝ :=
  bsPriceRaw S K (max T 1e-5) r (max sigma 1e-5) optType

/-- C9: for every pricing input, including T = 0 and sigma = 0, the kernel
evaluates on the clamped values max T 1e-5 and max sigma 1e-5: the price of a
domain-edge input equals the price of the corresponding clamped input (the
clamp is idempotent), and the divisor sigma * sqrt T appearing in d1 is
strictly positive after clamping, so no division by zero occurs in the price
computation. -/
theorem pricing_kernel_clamps_domain_edges (S K T r sigma optType : ℝ) :
    bsPrice S K T r sigma optType
      = bsPrice S K (max T 1e-5) r (max sigma 1e-5) optType
    ∧ 0 < max sigma 1e-5 * Real.sqrt (max T 1e-5) := by
  have heps : (0 : ℝ) < 1e-5 := by norm_num
  refine ⟨?_, ?_⟩
  · unfold bsPrice
    rw [max_assoc, max_self, max_assoc, max_self]
  · have hs : (0 : ℝ) < max sigma 1e-5 := lt_of_lt_of_le heps (le_max_right _ _)
    have ht : (0 : ℝ) < Real.sqrt (max T 1e-5) :=
      Real.sqrt_pos.mpr (lt_of_lt_of_le heps (le_max_right _ _))
    exact mul_pos hs ht

/-- Vectorized price computation of _black_scholes_with_greeks: a faithful
elementwise translation of its jnp array code. All six input arrays are
parallel lists; T and sigma are clamped first (jnp.maximum), then d1, d2, the
call and put price arrays, and the final jnp.where on option_type. -/
noncomputable def black_scholes_prices
    (Ss Ks Ts rs sigmas ots : List ℝ) : List ℝ :=
  let Ts2 := Ts.map fun t => max t 1e-5
  let sigs := sigmas.map fun s => max s 1e-5
  let sigSqrtT := List.zipWith (fun s q => s * q) sigs (Ts2.map Real.sqrt)
  let d1s := List.zipWith (fun a b => a / b)
    (List.zipWith (fun a b => a + b)
      ((List.zipWith (fun s k => s / k) Ss Ks).map Real.log)
      (List.zipWith (fun a t => a * t)
        (List.zipWith (fun r s => r + 0.5 * s ^ 2) rs sigs) Ts2))
    sigSqrtT
  let d2s := List.zipWith (fun a b => a - b) d1s sigSqrtT
  let discKs := List.zipWith (fun k e => k * e) Ks
    (List.zipWith (fun r t => Real.exp (-r * t)) rs Ts2)
  let callPs := List.zipWith (fun a b => a - b)
    (List.zipWith (fun s x => s * x) Ss (d1s.map normCdf))
    (List.zipWith (fun kd x => kd * x) discKs (d2s.map normCdf))
  let putPs := List.zipWith (fun a b => a - b)
    (List.zipWith (fun kd x => kd * x) discKs (d2s.map fun x => normCdf (-x)))
    (List.zipWith (fun s x => s * x) Ss (d1s.map fun x => normCdf (-x)))
  List.zipWith (fun o cp => if o = 1 then cp.1 else cp.2) ots (callPs.zip putPs)

lemma black_scholes_prices_nil :
    black_scholes_prices [] [] [] [] [] [] = [] := rfl

lemma black_scholes_prices_cons (S K T r sigma o : ℝ)
    (Ss Ks Ts rs sigmas ots : List ℝ) :
    black_scholes_prices (S :: Ss) (K :: Ks) (T :: Ts) (r :: rs)
        (sigma :: sigmas) (o :: ots)
      = bsPrice S K T r sigma o :: black_scholes_prices Ss Ks Ts rs sigmas ots := by
  simp only [black_scholes_prices, bsPrice, bsPriceRaw, List.map_cons,
    List.zipWith_cons_cons, List.zip_cons_cons]

lemma black_scholes_prices_getD (Ss Ks Ts rs sigmas ots : List ℝ) (i : ℕ)
    (hK : Ks.length = Ss.length) (hT : Ts.length = Ss.length)
    (hr : rs.length = Ss.length) (hsig : sigmas.length = Ss.length)
    (hot : ots.length = Ss.length) (hi : i < Ss.length) :
    (black_scholes_prices Ss Ks Ts rs sigmas ots).getD i 0
      = bsPrice (Ss.getD i 0) (Ks.getD i 0) (Ts.getD i 0) (rs.getD i 0)
          (sigmas.getD i 0) (ots.getD i 0) := by
  induction Ss generalizing Ks Ts rs sigmas ots i with
  | nil => simp at hi
  | cons S Ss ih =>
    rcases Ks with _ | ⟨K, Ks⟩; · simp at hK
    rcases Ts with _ | ⟨T, Ts⟩; · simp at hT
    rcases rs with _ | ⟨r, rs⟩; · simp at hr
    rcases sigmas with _ | ⟨sg, sigmas⟩; · simp at hsig
    rcases ots with _ | ⟨o, ots⟩; · simp at hot
    rw [black_scholes_prices_cons]
    cases i with
    | zero => simp
    | succ n =>
      simp only [List.getD_cons_succ]
      exact ih Ks Ts rs sigmas ots n (by simpa using hK) (by simpa using hT)
        (by simpa using hr) (by simpa using hsig) (by simpa using hot)
        (by simpa using hi)

/-- Black-Scholes d1 as computed after the clamping of T and sigma. -/
noncomputable def bsD1 (S K T r sigma : ℝ) : ℝ :=
  (Real.log (S / K) + (r + 0.5 * (max sigma 1e-5) ^ 2) * max T 1e-5)
    / (max sigma 1e-5 * Real.sqrt (max T 1e-5))

/-- Black-Scholes d2 = d1 - sigma * sqrt T on the clamped values. -/
noncomputable def bsD2 (S K T r sigma : ℝ) : ℝ :=
  bsD1 S K T r sigma - max sigma 1e-5 * Real.sqrt (max T 1e-5)

/-- C1: for every batch of contracts and every index i with S > 0 and K > 0
at that index, the price the vectorized Pricing Kernel computes at index i is
exactly the scalar Black-Scholes evaluation of that contract alone (no
cross-contract coupling): with d1 and d2 computed from the clamped T and
sigma, the call price is S * Phi d1 - K * exp (-r T) * Phi d2 and the put
price is K * exp (-r T) * Phi (-d2) - S * Phi (-d1). -/
theorem black_scholes_batch_matches_scalar
    (Ss Ks Ts rs sigmas ots : List ℝ) (i : ℕ)
    (hK : Ks.length = Ss.length) (hT : Ts.length = Ss.length)
    (hr : rs.length = Ss.length) (hsig : sigmas.length = Ss.length)
    (hot : ots.length = Ss.length) (hi : i < Ss.length)
    (hS0 : 0 < Ss.getD i 0) (hK0 : 0 < Ks.getD i 0) :
    (black_scholes_prices Ss Ks Ts rs sigmas ots).getD i 0
        = bsPrice (Ss.getD i 0) (Ks.getD i 0) (Ts.getD i 0) (rs.getD i 0)
            (sigmas.getD i 0) (ots.getD i 0)
    ∧ (ots.getD i 0 = 1 →
        (black_scholes_prices Ss Ks Ts rs sigmas ots).getD i 0
          = Ss.getD i 0 * normCdf (bsD1 (Ss.getD i 0) (Ks.getD i 0)
                (Ts.getD i 0) (rs.getD i 0) (sigmas.getD i 0))
            - Ks.getD i 0 * Real.exp (-(rs.getD i 0) * max (Ts.getD i 0) 1e-5)
              * normCdf (bsD2 (Ss.getD i 0) (Ks.getD i 0) (Ts.getD i 0)
                (rs.getD i 0) (sigmas.getD i 0)))
    ∧ (ots.getD i 0 = -1 →
        (black_scholes_prices Ss Ks Ts rs sigmas ots).getD i 0
          = Ks.getD i 0 * Real.exp (-(rs.getD i 0) * max (Ts.getD i 0) 1e-5)
              * normCdf (-(bsD2 (Ss.getD i 0) (Ks.getD i 0) (Ts.getD i 0)
                (rs.getD i 0) (sigmas.getD i 0)))
            - Ss.getD i 0 * normCdf (-(bsD1 (Ss.getD i 0) (Ks.getD i 0)
                (Ts.getD i 0) (rs.getD i 0) (sigmas.getD i 0)))) := by
  have hmain := black_scholes_prices_getD Ss Ks Ts rs sigmas ots i
    hK hT hr hsig hot hi
  refine ⟨hmain, ?_, ?_⟩
  · intro hcall
    rw [hmain, hcall]
    simp [bsPrice, bsPriceRaw, bsD2, bsD1]
  · intro hput
    rw [hmain, hput]
    simp only [bsPrice, bsPriceRaw, bsD2, bsD1]
    rw [if_neg (by norm_num : ¬((-1 : ℝ) = 1))]

theorem black_scholes_batch_matches_scalar_witness :
    (0 : ℝ) < ([(100 : ℝ)].getD 0 0)
    ∧ (black_scholes_prices [100] [95] [1] [0.05] [0.2] [1]).getD 0 0
        = bsPrice ([(100 : ℝ)].getD 0 0) ([(95 : ℝ)].getD 0 0)
            ([(1 : ℝ)].getD 0 0) ([(0.05 : ℝ)].getD 0 0)
            ([(0.2 : ℝ)].getD 0 0) ([(1 : ℝ)].getD 0 0) := by
  have h := black_scholes_batch_matches_scalar [100] [95] [1] [0.05] [0.2] [1] 0
    rfl rfl rfl rfl rfl (by norm_num) (by norm_num [List.getD_cons_zero])
    (by norm_num [List.getD_cons_zero])
  exact ⟨by norm_num [List.getD_cons_zero], h.1⟩

/-- Vega as the implied-volatility solver uses it: iv_gradient multiplies the
kernel vega (autodiff of bs_price_single at the clamped point, divided by
100) back by 100, so the Newton update sees the raw derivative of the
Black-Scholes price with respect to volatility, taken at the clamped sigma
and clamped T. -/
noncomputable def ivVegaRaw (S K T r sigma optType : ℝ) : ℝ :=
  deriv (fun s => bsPriceRaw S K (max T 1e-5) r s optType) (max sigma 1e-5)

/-- One Newton-Raphson update of calculate_implied_volatility:
sigma - (price sigma - market_price) / vega sigma. -/
noncomputable def ivStep (marketPrice S K T r optType sigma : ℝ) : ℝ :=
  sigma - (bsPrice S K T r sigma optType - marketPrice)
    / ivVegaRaw S K T r sigma optType

/-- The fixed-count iteration loop of calculate_implied_volatility. -/
noncomputable def ivLoop (marketPrice S K T r optType : ℝ) : ℕ → ℝ → ℝ
  | 0, sigma => sigma
  | n + 1, sigma => ivLoop marketPrice S K T r optType n
      (ivStep marketPrice S K T r optType sigma)

/-- Implied-volatility solver of jax_engine.py: initial guess 0.3, ten
Newton-Raphson updates, value after the tenth returned unconditionally. -/
noncomputable def calculate_implied_volatility
    (marketPrice S K T r optType : ℝ) : ℝ :=
  ivLoop marketPrice S K T r optType 10 0.3

lemma ivLoop_eq_iterate (marketPrice S K T r optType : ℝ) (n : ℕ) (sigma : ℝ) :
    ivLoop marketPrice S K T r optType n sigma
      = (fun s => ivStep marketPrice S K T r optType s)^[n] sigma := by
  induction n generalizing sigma with
  | zero => rfl
  | succ m ih =>
    rw [ivLoop, ih, Function.iterate_succ_apply]

/-- C6: for every observed market price and contract parameters, the solver
starts from 0.30, performs exactly ten Newton-Raphson updates
sigma - (price sigma - market) / vega sigma with vega the raw unscaled
derivative of the pricing formula, has no convergence or divergence check,
and always returns the tenth iterate. -/
theorem implied_volatility_ten_newton_steps (marketPrice S K T r optType : ℝ) :
    calculate_implied_volatility marketPrice S K T r optType
      = (fun sigma => sigma
          - (bsPrice S K T r sigma optType - marketPrice)
            / deriv (fun s => bsPriceRaw S K (max T 1e-5) r s optType)
                (max sigma 1e-5))^[10] 0.3 := by
  rw [calculate_implied_volatility, ivLoop_eq_iterate]
  rfl

/-- Terminal underlying price of one geometric Brownian motion draw, as in
monte_carlo_probability: S * exp ((r - 0.5 sigma^2) T + sigma sqrt T * z). -/
noncomputable def terminalPrice (S T sigma r z : ℝ) : ℝ :=
  S * Real.exp ((r - 0.5 * sigma ^ 2) * T + sigma * Real.sqrt T * z)

/-- Monte Carlo estimate jnp.mean(ST > K): the fraction of the draw list zs
whose terminal price exceeds K. The draws of the fixed-seed PRNG are
abstracted as the list zs (the same list is reused for every strike, as the
source reuses one key). -/
noncomputable def itmProb (zs : List ℝ) (S K T sigma r : ℝ) : ℝ :=
  ((zs.countP fun z => decide (K < terminalPrice S T sigma r z)) : ℝ)
    / (zs.length : ℝ)

/-- One leg of a position as the dict the engine reads: a missing key raises
KeyError, modelled by none. option_type is 1.0 for a call, -1.0 for a put. -/
structure Leg where
  strike : Option ℝ
  quantity : Option ℝ
  option_type : Option ℝ

/-- A position record as the dict calculate_position_metrics reads. The
engine never reads a rate from the record: risk_free_rate models any
rate-related field a caller may supply, present but ignored. -/
structure Position where
  legs : Option (List Leg)
  underlying_price : Option ℝ
  dte : Option ℝ
  implied_volatility : Option ℝ
  max_loss : Option ℝ
  strategy_type : Option String
  break_even_price : Option ℝ
  risk_free_rate : Option ℝ

/-- A JAX array of rank 0 (a scalar such as jnp.array(100.0)) or rank 1
(such as jnp.array([90.0, 110.0])). jax.vmap with its default in_axes=0 maps
every input leaf along axis 0 and raises ValueError on a leaf of rank 0. -/
inductive JaxArray where
  | scalar (x : ℝ)
  | vector (xs : List ℝ)

/-- vmap of a five-argument scalar function over five parallel leaves. -/
def vmap5 {α : Type} (f : ℝ → ℝ → ℝ → ℝ → ℝ → α) :
    List ℝ → List ℝ → List ℝ → List ℝ → List ℝ → List α
  | a :: as, b :: bs, c :: cs, d :: ds, e :: es =>
      f a b c d e :: vmap5 f as bs cs ds es
  | _, _, _, _, _ => []

/-- monte_carlo_probability: vmap(single_simulation) over the tuple
(S, K, T, sigma, r). vmap maps every leaf along axis 0, so it requires each
of the five leaves to have rank at least 1 and one common leading size;
a rank-0 leaf (or mismatched sizes) raises ValueError, modelled by none. On
success each element is the in-the-money fraction jnp.mean(ST > K) of the
GBM draws zs (the same fixed-seed draw list for every element). -/
noncomputable def monte_carlo_probability (zs : List ℝ)
    (S K T sigma r : JaxArray) : Option (List ℝ) :=
  match S, K, T, sigma, r with
  | .vector Ss, .vector Ks, .vector Ts, .vector sigmas, .vector rs =>
    if Ss.length = Ks.length ∧ Ks.length = Ts.length
        ∧ Ts.length = sigmas.length ∧ sigmas.length = rs.length then
      some (vmap5 (fun a k t sg q => itmProb zs a k t sg q) Ss Ks Ts sigmas rs)
    else none
  | _, _, _, _, _ => none

/-- Probability-of-profit policy of _calculate_pop: empty strikes give 0.5; a
CREDIT_SPREAD with fewer than two strikes gives 0.5; a credit spread calls
monte_carlo_probability on the scalar S, T, sigma, r it received from
calculate_position_metrics together with the two-strike vector, and would
combine the two probabilities as 1 - (pop[0] + (1 - pop[1])); every other
strategy does the same with the break-even price. Any exception inside the
body — a KeyError on strategy_type or break_even_price, or the ValueError
the rank-0 vmap leaves raise inside monte_carlo_probability — is caught by
the internal handler, which returns 0.5. -/
noncomputable def calcPop (zs : List ℝ) (p : Position) (S : ℝ)
    (strikes : List ℝ) (T sigma r : ℝ) : ℝ :=
  if strikes.length = 0 then 0.5
  else
    match p.strategy_type with
    | none => 0.5
    | some st =>
      if st = "CREDIT_SPREAD" then
        if strikes.length < 2 then 0.5
        else
          match monte_carlo_probability zs (.scalar S)
              (.vector [strikes.getD 0 0, strikes.getD 1 0])
              (.scalar T) (.scalar sigma) (.scalar r) with
          | some pop => 1 - (pop.getD 0 0 + (1 - pop.getD 1 0))
          | none => 0.5
      else
        match p.break_even_price with
        | none => 0.5
        | some breakEven =>
          match monte_carlo_probability zs (.scalar S)
              (.vector [breakEven]) (.scalar T) (.scalar sigma)
              (.scalar r) with
          | some pop => pop.getD 0 0
          | none => 0.5

/-- Delta by automatic differentiation of bs_price_single (the unclamped
formula) at the clamped point, as the source computes it. -/
noncomputable def bsDelta (S K T r sigma optType : ℝ) : ℝ :=
  deriv (fun s => bsPriceRaw s K (max T 1e-5) r (max sigma 1e-5) optType) S

/-- Gamma: second derivative of the price in the underlying. -/
noncomputable def bsGamma (S K T r sigma optType : ℝ) : ℝ :=
  deriv (deriv (fun s => bsPriceRaw s K (max T 1e-5) r (max sigma 1e-5) optType)) S

/-- Theta: negated time derivative, reported per day. -/
noncomputable def bsTheta (S K T r sigma optType : ℝ) : ℝ :=
  -(deriv (fun t => bsPriceRaw S K t r (max sigma 1e-5) optType) (max T 1e-5)) / 365

/-- Vega: volatility derivative, reported per vol point (divided by 100). -/
noncomputable def bsVega (S K T r sigma optType : ℝ) : ℝ :=
  deriv (fun s => bsPriceRaw S K (max T 1e-5) r s optType) (max sigma 1e-5) / 100

/-- Rho: rate derivative, reported per percent (divided by 100). -/
noncomputable def bsRho (S K T r sigma optType : ℝ) : ℝ :=
  deriv (fun q => bsPriceRaw S K (max T 1e-5) q (max sigma 1e-5) optType) r / 100

/-- vmap of a scalar six-argument function over six parallel arrays. -/
def vmap6 {α : Type} (f : ℝ → ℝ → ℝ → ℝ → ℝ → ℝ → α) :
    List ℝ → List ℝ → List ℝ → List ℝ → List ℝ → List ℝ → List α
  | a :: as, b :: bs, c :: cs, d :: ds, e :: es, g :: gs =>
      f a b c d e g :: vmap6 f as bs cs ds es gs
  | _, _, _, _, _, _ => []

/-- Output record of _black_scholes_with_greeks. -/
structure BSOut where
  prices : List ℝ
  deltas : List ℝ
  gammas : List ℝ
  thetas : List ℝ
  vegas : List ℝ
  rhos : List ℝ

/-- Full vectorized kernel: prices by the elementwise array code, Greeks by
vmap of the autodiff gradients over the clamped arrays. -/
noncomputable def black_scholes_with_greeks
    (Ss Ks Ts rs sigmas ots : List ℝ) : BSOut :=
  { prices := black_scholes_prices Ss Ks Ts rs sigmas ots
    deltas := vmap6 bsDelta Ss Ks Ts rs sigmas ots
    gammas := vmap6 bsGamma Ss Ks Ts rs sigmas ots
    thetas := vmap6 bsTheta Ss Ks Ts rs sigmas ots
    vegas := vmap6 bsVega Ss Ks Ts rs sigmas ots
    rhos := vmap6 bsRho Ss Ks Ts rs sigmas ots }

/-- Greeks container (GreekMetrics dataclass). -/
structure GreekMetrics where
  delta : ℝ
  gamma : ℝ
  theta : ℝ
  vega : ℝ
  rho : ℝ

/-- Position-level metrics (PositionMetrics dataclass). -/
structure PositionMetrics where
  theoretical_value : ℝ
  probability_profit : ℝ
  expected_value : ℝ
  greeks : GreekMetrics

/-- The neutral default metrics: value 0, POP 0.5, expected value 0, all
Greeks zero. -/
def neutralMetrics : PositionMetrics :=
  { theoretical_value := 0, probability_profit := 0.5, expected_value := 0,
    greeks := { delta := 0, gamma := 0, theta := 0, vega := 0, rho := 0 } }

/-- List comprehension [leg[k] for leg in legs]: fails (KeyError) when any
leg misses the key. -/
def extractLegField (f : Leg → Option ℝ) : List Leg → Option (List ℝ)
  | [] => some []
  | l :: ls => (f l).bind fun x => (extractLegField f ls).map fun xs => x :: xs

/-- Quantity-weighted sum jnp.sum(xs * quantities). -/
def dotList (xs ys : List ℝ) : ℝ := (List.zipWith (fun a b => a * b) xs ys).sum

/-- Try-block body of calculate_position_metrics, generalized over the
hard-coded risk-free rate: none models an escaped exception (missing dict
key), caught by the outer handler. Legs missing or empty return the neutral
metrics without touching any other field. -/
noncomputable def attemptMetricsAtRate (rfr : ℝ) (zs : List ℝ)
    (p : Position) : Option PositionMetrics :=
  match p.legs with
  | none => some neutralMetrics
  | some [] => some neutralMetrics
  | some legs =>
    p.underlying_price.bind fun S =>
    (extractLegField Leg.strike legs).bind fun strikes =>
    (extractLegField Leg.quantity legs).bind fun quantities =>
    (extractLegField Leg.option_type legs).bind fun optionTypes =>
    p.dte.bind fun dte =>
    p.implied_volatility.bind fun sigma =>
    let T := dte / 365
    let n := legs.length
    let out := black_scholes_with_greeks (List.replicate n S) strikes
      (List.replicate n T) (List.replicate n rfr)
      (List.replicate n sigma) optionTypes
    let value := dotList out.prices quantities
    let pop := calcPop zs p S strikes T sigma rfr
    p.max_loss.bind fun maxLoss =>
    some { theoretical_value := value, probability_profit := pop,
           expected_value := value * pop - maxLoss * (1 - pop),
           greeks := { delta := dotList out.deltas quantities,
                       gamma := dotList out.gammas quantities,
                       theta := dotList out.thetas quantities,
                       vega := dotList out.vegas quantities,
                       rho := dotList out.rhos quantities } }

/-- The try-block body with the hard-coded rate r = 0.05 of the source. -/
noncomputable def attemptMetrics (zs : List ℝ) (p : Position) :
    Option PositionMetrics :=
  attemptMetricsAtRate 0.05 zs p

/-- calculate_position_metrics: the try body, with every escaped exception
converted to the neutral default by the catch-all handler; total, so the
caller never sees a raised exception. -/
noncomputable def calculate_position_metrics (zs : List ℝ) (p : Position) :
    PositionMetrics :=
  match attemptMetrics zs p with
  | some m => m
  | none => neutralMetrics

/-- C2: calculate_position_metrics never raises. A position whose legs entry
is missing or empty yields the neutral metrics; any escaped exception in the
body (a none from the try-block model) yields the same neutral metrics; and
when the body succeeds on a position with legs, the returned record satisfies
expected_value = value * POP - max_loss * (1 - POP). -/
theorem position_metrics_never_raise (zs : List ℝ) (p : Position) :
    ((p.legs = none ∨ p.legs = some []) →
      calculate_position_metrics zs p = neutralMetrics)
    ∧ (attemptMetrics zs p = none →
      calculate_position_metrics zs p = neutralMetrics)
    ∧ (∀ legs m, p.legs = some legs → legs ≠ [] →
        attemptMetrics zs p = some m →
          calculate_position_metrics zs p = m
          ∧ ∃ maxLoss, p.max_loss = some maxLoss
              ∧ m.expected_value
                  = m.theoretical_value * m.probability_profit
                    - maxLoss * (1 - m.probability_profit)) := by
  refine ⟨?_, ?_, ?_⟩
  · rintro (h | h) <;>
      simp [calculate_position_metrics, attemptMetrics, attemptMetricsAtRate, h]
  · intro h
    simp [calculate_position_metrics, h]
  · intro legs m hlegs hne hsome
    have hcalc : calculate_position_metrics zs p = m := by
      simp [calculate_position_metrics, hsome]
    refine ⟨hcalc, ?_⟩
    rcases legs with _ | ⟨l, ls⟩
    · exact absurd rfl hne
    rw [attemptMetrics, attemptMetricsAtRate, hlegs] at hsome
    simp only [Option.bind_eq_some, Option.some.injEq] at hsome
    obtain ⟨S, hS, strikes, hst, qs, hq, otypes, hot2, dte, hdte, sigma, hsig,
      maxLoss, hml, heq⟩ := hsome
    subst heq
    exact ⟨maxLoss, hml, rfl⟩

/-- C10: the engine prices with the hard-coded risk-free rate 0.05: a
rate-related field supplied by the caller never influences the output, and
the try-block body is the rate-generalized body at rate 0.05. -/
theorem metrics_ignore_caller_rate (zs : List ℝ) (p : Position)
    (o1 o2 : Option ℝ) :
    calculate_position_metrics zs { p with risk_free_rate := o1 }
      = calculate_position_metrics zs { p with risk_free_rate := o2 }
    ∧ attemptMetrics zs p = attemptMetricsAtRate 0.05 zs p :=
  ⟨rfl, rfl⟩

lemma calcPop_eq_half (zs : List ℝ) (p : Position) (S : ℝ)
    (strikes : List ℝ) (T sigma r : ℝ) :
    calcPop zs p S strikes T sigma r = 0.5 := by
  unfold calcPop
  split
  · rfl
  · split
    · rfl
    · split
      · split
        · rfl
        · rfl
      · split
        · rfl
        · rfl

lemma attemptMetricsAtRate_pop_half (rfr : ℝ) (zs : List ℝ) (p : Position)
    (m : PositionMetrics) (h : attemptMetricsAtRate rfr zs p = some m) :
    m.probability_profit = 0.5 := by
  rw [attemptMetricsAtRate] at h
  cases hlegs : p.legs with
  | none =>
    rw [hlegs] at h
    cases h
    rfl
  | some legs =>
    cases legs with
    | nil =>
      rw [hlegs] at h
      cases h
      rfl
    | cons l ls =>
      rw [hlegs] at h
      simp only [Option.bind_eq_some, Option.some.injEq] at h
      obtain ⟨S, _, strikes, _, qs, _, otypes, _, dte, _, sigma, _,
        maxLoss, _, heq⟩ := h
      rw [← heq]
      exact calcPop_eq_half zs p S strikes (dte / 365) sigma rfr

/-- A concrete call-credit-spread position: short strike 90 below long
strike 110, underlying 100, zero days to expiration, zero implied
volatility. -/
def creditPosition : Position :=
  { legs := some
      [{ strike := some 90, quantity := some (-1), option_type := some 1 },
       { strike := some 110, quantity := some 1, option_type := some 1 }]
    underlying_price := some 100
    dte := some 0
    implied_volatility := some 0
    max_loss := some 1
    strategy_type := some "CREDIT_SPREAD"
    break_even_price := none
    risk_free_rate := none }

/-- C4 fails on the code: at the concrete credit spread (strikes 90 and 110,
underlying 100, T = 0, sigma = 0, rate 0.05, one draw z = 0) the Probability
Estimator returns the neutral 0.5, because monte_carlo_probability receives
rank-0 leaves for S, T, sigma and r, its vmap raises ValueError, and the
handler answers 0.5 — while the claimed Monte Carlo formula
1 - (P(ST > 90) + (1 - P(ST > 110))) evaluates to -1 there. The claimed
credit-spread combination is dead code: the spec states the intended
behavior and the code never computes it. -/
theorem credit_spread_pop_dead_formula :
    calcPop [0] creditPosition 100 [90, 110] 0 0 0.05 = 0.5
    ∧ monte_carlo_probability [0] (.scalar 100) (.vector [90, 110])
        (.scalar 0) (.scalar 0) (.scalar 0.05) = none
    ∧ 1 - (itmProb [0] 100 90 0 0 0.05 + (1 - itmProb [0] 100 110 0 0 0.05))
        = -1 := by
  refine ⟨calcPop_eq_half [0] creditPosition 100 [90, 110] 0 0 0.05, rfl, ?_⟩
  have hterm : ∀ q z : ℝ, terminalPrice 100 0 0 q z = 100 := by
    intro q z
    simp [terminalPrice]
  have h90 : itmProb [0] 100 90 0 0 0.05 = 1 := by
    norm_num [itmProb, List.countP_cons, List.countP_nil, hterm]
  have h110 : itmProb [0] 100 110 0 0 0.05 = 0 := by
    norm_num [itmProb, List.countP_cons, List.countP_nil, hterm]
  rw [h90, h110]
  norm_num

/-- C5: for every Position input — every strategy kind and every ordering of
strikes — the probability of profit the estimator returns, and the value
embedded in PositionMetrics, lie in the unit interval. In the shipped code
every path of _calculate_pop answers 0.5: the explicit guards return it, and
the Monte Carlo call raises on its rank-0 vmap leaves so the handler returns
it too. -/
theorem pop_always_unit_interval (zs : List ℝ) (p : Position) (S : ℝ)
    (strikes : List ℝ) (T sigma r : ℝ) :
    0 ≤ calcPop zs p S strikes T sigma r
    ∧ calcPop zs p S strikes T sigma r ≤ 1
    ∧ 0 ≤ (calculate_position_metrics zs p).probability_profit
    ∧ (calculate_position_metrics zs p).probability_profit ≤ 1 := by
  have hpop := calcPop_eq_half zs p S strikes T sigma r
  have hm : (calculate_position_metrics zs p).probability_profit = 0.5 := by
    rw [calculate_position_metrics]
    cases h : attemptMetrics zs p with
    | none => rfl
    | some m => exact attemptMetricsAtRate_pop_half 0.05 zs p m h
  rw [hpop, hm]
  norm_num

/-- Fixed thresholds dict set in AccountRiskMonitor init. -/
structure Thresholds where
  buying_power_usage : ℝ
  margin_usage : ℝ
  max_drawdown : ℝ
  sector_concentration : ℝ
  portfolio_delta : ℝ
  portfolio_gamma : ℝ
  portfolio_vega : ℝ
  position_concentration : ℝ

/-- The concrete threshold values of the source. -/
def codeThresholds : Thresholds :=
  { buying_power_usage := 0.7, margin_usage := 0.5, max_drawdown := 0.1,
    sector_concentration := 0.3, portfolio_delta := 100,
    portfolio_gamma := 50, portfolio_vega := 200,
    position_concentration := 0.2 }

/-- Portfolio Greeks dict built by _calculate_portfolio_greeks; every key the
scorer reads is present. -/
structure PortfolioGreeks where
  delta : ℝ
  gamma : ℝ
  theta : ℝ
  vega : ℝ

/-- Python max(values) with the empty collection mapped to 0 by the guarding
conditional of the source. -/
def listMax : List ℝ → ℝ
  | [] => 0
  | x :: xs => xs.foldl max x

/-- The scores list _calculate_risk_score builds: one min(ratio, 1.0) per
risk factor, each appended only when its threshold (or the max-positions
limit) is strictly positive. -/
noncomputable def riskScoreTerms (th : Thresholds) (maxPositions : ℕ)
    (greeks : PortfolioGreeks) (sectorConc : List ℝ)
    (marginUsage : ℝ) (positionCount : ℕ) : List ℝ :=
  (if 0 < th.portfolio_delta then
    [min (|greeks.delta| / th.portfolio_delta) 1] else [])
  ++ (if 0 < th.portfolio_gamma then
    [min (|greeks.gamma| / th.portfolio_gamma) 1] else [])
  ++ (if 0 < th.portfolio_vega then
    [min (|greeks.vega| / th.portfolio_vega) 1] else [])
  ++ (if 0 < th.sector_concentration then
    [min (listMax sectorConc / th.sector_concentration) 1] else [])
  ++ (if 0 < th.margin_usage then
    [min (marginUsage / th.margin_usage) 1] else [])
  ++ (if 0 < maxPositions then
    [min ((positionCount : ℝ) / (maxPositions : ℝ)) 1] else [])

/-- _calculate_risk_score: sum(scores)/len(scores) if scores else 0.0. -/
noncomputable def calculate_risk_score (th : Thresholds) (maxPositions : ℕ)
    (greeks : PortfolioGreeks) (sectorConc : List ℝ)
    (marginUsage : ℝ) (positionCount : ℕ) : ℝ :=
  let scores := riskScoreTerms th maxPositions greeks sectorConc
    marginUsage positionCount
  if scores = [] then 0 else scores.sum / scores.length

/-- Clipping to the unit interval, following the words of the spec. -/
noncomputable def clip01 (x : ℝ) : ℝ := max 0 (min x 1)

/-- The composite score as the spec words it: the arithmetic mean of the
applicable ratios each clipped to the unit interval, 0 when none applies. -/
noncomputable def specRiskScore (th : Thresholds) (maxPositions : ℕ)
    (greeks : PortfolioGreeks) (sectorConc : List ℝ)
    (marginUsage : ℝ) (positionCount : ℕ) : ℝ :=
  let ratios :=
    (if 0 < th.portfolio_delta then
      [clip01 (|greeks.delta| / th.portfolio_delta)] else [])
    ++ (if 0 < th.portfolio_gamma then
      [clip01 (|greeks.gamma| / th.portfolio_gamma)] else [])
    ++ (if 0 < th.portfolio_vega then
      [clip01 (|greeks.vega| / th.portfolio_vega)] else [])
    ++ (if 0 < th.sector_concentration then
      [clip01 (listMax sectorConc / th.sector_concentration)] else [])
    ++ (if 0 < th.margin_usage then
      [clip01 (marginUsage / th.margin_usage)] else [])
    ++ (if 0 < maxPositions then
      [clip01 ((positionCount : ℝ) / (maxPositions : ℝ))] else [])
  if ratios = [] then 0 else ratios.sum / ratios.length

lemma listMax_nonneg (l : List ℝ) (h : ∀ v ∈ l, 0 ≤ v) : 0 ≤ listMax l := by
  rcases l with _ | ⟨x, xs⟩
  · simp [listMax]
  · have hbase : x ≤ xs.foldl max x := by
      clear h
      induction xs generalizing x with
      | nil => simp
      | cons y ys ih =>
        calc x ≤ max x y := le_max_left x y
        _ ≤ List.foldl max (max x y) ys := ih (max x y)
    exact le_trans (h x (List.mem_cons_self x xs)) hbase

lemma mean_of_unit_interval (l : List ℝ) (h : ∀ x ∈ l, 0 ≤ x ∧ x ≤ 1) :
    0 ≤ (if l = [] then (0 : ℝ) else l.sum / l.length)
    ∧ (if l = [] then (0 : ℝ) else l.sum / l.length) ≤ 1 := by
  rcases eq_or_ne l [] with hl | hl
  · simp [hl]
  · rw [if_neg hl]
    have hlen : (0 : ℝ) < l.length := by
      have : l.length ≠ 0 := fun hc => hl (List.length_eq_zero.mp hc)
      exact_mod_cast Nat.pos_of_ne_zero this
    constructor
    · exact div_nonneg (List.sum_nonneg fun x hx => (h x hx).1) (le_of_lt hlen)
    · rw [div_le_one hlen]
      have := List.sum_le_card_nsmul l 1 fun x hx => (h x hx).2
      simpa using this

lemma mem_guard_singleton {c : Prop} [Decidable c] {x y : ℝ}
    (hx : x ∈ (if c then [y] else [])) : c ∧ x = y := by
  split_ifs at hx with hc
  · exact ⟨hc, List.mem_singleton.mp hx⟩
  · exact absurd hx (List.not_mem_nil x)

lemma min_ratio_mem_unit {num den : ℝ} (hnum : 0 ≤ num) (hden : 0 < den) :
    0 ≤ min (num / den) 1 ∧ min (num / den) 1 ≤ 1 :=
  ⟨le_min (div_nonneg hnum hden.le) zero_le_one, min_le_right _ _⟩

lemma guard_clip_eq {c : Prop} [Decidable c] {y : ℝ} (h : c → 0 ≤ y) :
    (if c then [clip01 y] else []) = (if c then [min y 1] else []) := by
  split_ifs with hc
  · rw [clip01, max_eq_right (le_min (h hc) zero_le_one)]
  · rfl

/-- C3: for every combination of portfolio Greeks, sector-concentration map,
nonnegative margin-usage ratio and open-position count, the composite risk
score of _calculate_risk_score equals the arithmetic mean of the applicable
ratios each clipped to the unit interval (a ratio whose threshold is not
positive is excluded); the score always lies in the unit interval; and it is
0 when no ratio is applicable. -/
theorem portfolio_risk_score_clipped_mean (th : Thresholds)
    (maxPositions : ℕ) (greeks : PortfolioGreeks) (sectorConc : List ℝ)
    (marginUsage : ℝ) (positionCount : ℕ)
    (hm : 0 ≤ marginUsage) (hsec : ∀ v ∈ sectorConc, 0 ≤ v) :
    calculate_risk_score th maxPositions greeks sectorConc marginUsage
        positionCount
      = specRiskScore th maxPositions greeks sectorConc marginUsage
          positionCount
    ∧ 0 ≤ calculate_risk_score th maxPositions greeks sectorConc marginUsage
        positionCount
    ∧ calculate_risk_score th maxPositions greeks sectorConc marginUsage
        positionCount ≤ 1
    ∧ (riskScoreTerms th maxPositions greeks sectorConc marginUsage
        positionCount = [] →
      calculate_risk_score th maxPositions greeks sectorConc marginUsage
        positionCount = 0) := by
  have hterms : ∀ x ∈ riskScoreTerms th maxPositions greeks sectorConc
      marginUsage positionCount, 0 ≤ x ∧ x ≤ 1 := by
    intro x hx
    rw [riskScoreTerms] at hx
    rcases List.mem_append.mp hx with h | hF
    · rcases List.mem_append.mp h with h | hE
      · rcases List.mem_append.mp h with h | hD
        · rcases List.mem_append.mp h with h | hC
          · rcases List.mem_append.mp h with hA | hB
            · obtain ⟨hc, rfl⟩ := mem_guard_singleton hA
              exact min_ratio_mem_unit (abs_nonneg _) hc
            · obtain ⟨hc, rfl⟩ := mem_guard_singleton hB
              exact min_ratio_mem_unit (abs_nonneg _) hc
          · obtain ⟨hc, rfl⟩ := mem_guard_singleton hC
            exact min_ratio_mem_unit (abs_nonneg _) hc
        · obtain ⟨hc, rfl⟩ := mem_guard_singleton hD
          exact min_ratio_mem_unit (listMax_nonneg sectorConc hsec) hc
      · obtain ⟨hc, rfl⟩ := mem_guard_singleton hE
        exact min_ratio_mem_unit hm hc
    · obtain ⟨hc, rfl⟩ := mem_guard_singleton hF
      exact min_ratio_mem_unit (by positivity) (by exact_mod_cast hc)
  have hmean := mean_of_unit_interval _ hterms
  have hcode : calculate_risk_score th maxPositions greeks sectorConc
      marginUsage positionCount
      = if riskScoreTerms th maxPositions greeks sectorConc marginUsage
          positionCount = [] then (0 : ℝ)
        else (riskScoreTerms th maxPositions greeks sectorConc marginUsage
          positionCount).sum
          / (riskScoreTerms th maxPositions greeks sectorConc marginUsage
            positionCount).length := rfl
  refine ⟨?_, ?_, ?_, ?_⟩
  · rw [specRiskScore, calculate_risk_score, riskScoreTerms,
      guard_clip_eq (fun hc => div_nonneg (abs_nonneg _) hc.le),
      guard_clip_eq (fun hc => div_nonneg (abs_nonneg _) hc.le),
      guard_clip_eq (fun hc => div_nonneg (abs_nonneg _) hc.le),
      guard_clip_eq (fun hc =>
        div_nonneg (listMax_nonneg sectorConc hsec) hc.le),
      guard_clip_eq (fun hc => div_nonneg hm hc.le),
      guard_clip_eq (fun _ => by positivity)]
  · rw [hcode]; exact hmean.1
  · rw [hcode]; exact hmean.2
  · intro h
    rw [hcode, if_pos h]

theorem portfolio_risk_score_clipped_mean_witness :
    ((0 : ℝ) ≤ 0.2 ∧ ∀ v ∈ ([0.5, 0.25] : List ℝ), 0 ≤ v)
    ∧ (calculate_risk_score codeThresholds 5
          { delta := 10, gamma := 5, theta := -3, vega := 20 }
          [0.5, 0.25] 0.2 2
        = specRiskScore codeThresholds 5
            { delta := 10, gamma := 5, theta := -3, vega := 20 }
            [0.5, 0.25] 0.2 2
      ∧ 0 ≤ calculate_risk_score codeThresholds 5
          { delta := 10, gamma := 5, theta := -3, vega := 20 }
          [0.5, 0.25] 0.2 2
      ∧ calculate_risk_score codeThresholds 5
          { delta := 10, gamma := 5, theta := -3, vega := 20 }
          [0.5, 0.25] 0.2 2 ≤ 1
      ∧ (riskScoreTerms codeThresholds 5
          { delta := 10, gamma := 5, theta := -3, vega := 20 }
          [0.5, 0.25] 0.2 2 = [] →
        calculate_risk_score codeThresholds 5
          { delta := 10, gamma := 5, theta := -3, vega := 20 }
          [0.5, 0.25] 0.2 2 = 0)) := by
  have hm : (0 : ℝ) ≤ 0.2 := by norm_num
  have hsec : ∀ v ∈ ([0.5, 0.25] : List ℝ), (0 : ℝ) ≤ v := by
    intro v hv
    simp only [List.mem_cons, List.not_mem_nil, or_false] at hv
    rcases hv with rfl | rfl <;> norm_num
  exact ⟨⟨hm, hsec⟩,
    portfolio_risk_score_clipped_mean codeThresholds 5
      { delta := 10, gamma := 5, theta := -3, vega := 20 }
      [0.5, 0.25] 0.2 2 hm hsec⟩

/-- A position record as assess_portfolio_risk reads it. A none entry in the
outer list models a falsy position value, skipped by the loop. -/
structure ConcPosition where
  quantity : Option ℝ
  entry_price : Option ℝ
  strategy_type : Option String

/-- position_value = quantity * entry_price * 100 with the .get defaults. -/
def posValue (p : ConcPosition) : ℝ :=
  p.quantity.getD 0 * p.entry_price.getD 0 * 100

/-- strategy = position.get(strategy_type, unknown). -/
def posStrategy (p : ConcPosition) : String :=
  p.strategy_type.getD "unknown"

/-- The positions the loop actually processes (falsy entries skipped). -/
def realPositions (ps : List (Option ConcPosition)) : List ConcPosition :=
  ps.filterMap id

/-- total_invested accumulated over the loop. -/
def totalInvested (ps : List (Option ConcPosition)) : ℝ :=
  ((realPositions ps).map posValue).sum

/-- In-place update or append of one strategy's accumulated value, mirroring
dict insertion-order semantics of strategy_concentration. -/
def addStrategy : List (String × ℝ) → String → ℝ → List (String × ℝ)
  | [], s, v => [(s, v)]
  | (t, w) :: rest, s, v =>
    if t = s then (t, w + v) :: rest else (t, w) :: addStrategy rest s v

/-- The strategy_concentration dict as an insertion-ordered association
list. -/
def strategyConcentration (ps : List (Option ConcPosition)) :
    List (String × ℝ) :=
  (realPositions ps).foldl
    (fun acc p => addStrategy acc (posStrategy p) (posValue p)) []

/-- concentration percent of one strategy value:
(value / total_invested) * 100 if total_invested > 0 else 0. -/
noncomputable def concPct (total v : ℝ) : ℝ :=
  if 0 < total then v / total * 100 else 0

/-- max_concentration accumulated over the concentration loop, starting 0. -/
noncomputable def maxConcentration (ps : List (Option ConcPosition)) : ℝ :=
  (strategyConcentration ps).foldl
    (fun m e => max m (concPct (totalInvested ps) e.2)) 0

/-- A concern string: either a fixed message or the formatted
"High concentration in strategy: percent" message, kept as its parts. -/
inductive Concern where
  | text (msg : String)
  | highConcentration (strategy : String) (percent : ℝ)

/-- The concentration_concerns list: one high-concentration concern per
strategy whose percent share strictly exceeds 40. -/
noncomputable def concentrationConcerns (ps : List (Option ConcPosition)) :
    List Concern :=
  (strategyConcentration ps).filterMap fun e =>
    if 40 < concPct (totalInvested ps) e.2
    then some (Concern.highConcentration e.1 (concPct (totalInvested ps) e.2))
    else none

/-- The RiskAssessment record of the concentration-only mode. -/
structure ConcAssessment where
  alert_level : ℕ
  message : String
  concerns : List Concern
  recommendations : List String

/-- assess_portfolio_risk: the empty-portfolio branch follows the hard-coded
market condition of the source (trend bullish and VIX 18.5 < 25 classify as
bullish); a non-empty portfolio is scored by strategy concentration alone and
bucketed on risk_score = min(10, max_concentration / 10). -/
noncomputable def assess_portfolio_risk (ps : List (Option ConcPosition)) :
    ConcAssessment :=
  match ps with
  | [] =>
    { alert_level := 1
      message := "Bullish market with no positions - consider strategic entries"
      concerns := [Concern.text "No open positions",
                   Concern.text "Missing potential income opportunities"]
      recommendations := ["Consider opening positions in bullish market",
                          "Start with small defined-risk trades"] }
  | _ :: _ =>
    if 8 ≤ min 10 (maxConcentration ps / 10) then
      { alert_level := 8, message := "Critical concentration risk",
        concerns := concentrationConcerns ps,
        recommendations := ["Reduce position concentration",
                            "Diversify across strategies"] }
    else if 5 ≤ min 10 (maxConcentration ps / 10) then
      { alert_level := 5, message := "High concentration risk",
        concerns := concentrationConcerns ps,
        recommendations := ["Consider diversifying positions"] }
    else if 3 ≤ min 10 (maxConcentration ps / 10) then
      { alert_level := 3, message := "Moderate concentration risk",
        concerns := concentrationConcerns ps,
        recommendations := ["Monitor position concentration"] }
    else
      { alert_level := 0, message := "Low risk portfolio",
        concerns := [], recommendations := [] }

lemma le_foldl_max_base {α : Type} (f : α → ℝ) :
    ∀ (l : List α) (a : ℝ), a ≤ l.foldl (fun m e => max m (f e)) a := by
  intro l
  induction l with
  | nil => intro a; simp
  | cons y ys ih =>
    intro a
    exact le_trans (le_max_left a (f y)) (ih (max a (f y)))

lemma mem_le_foldl_max {α : Type} (f : α → ℝ) :
    ∀ (l : List α) (a : ℝ) (x : α), x ∈ l →
      f x ≤ l.foldl (fun m e => max m (f e)) a := by
  intro l
  induction l with
  | nil => intro a x hx; simp at hx
  | cons y ys ih =>
    intro a x hx
    rcases List.mem_cons.mp hx with rfl | hmem
    · exact le_trans (le_max_right a (f x)) (le_foldl_max_base f ys (max a (f x)))
    · exact ih (max a (f y)) x hmem

/-- C7: in concentration-only fast mode on a non-empty positions collection,
the internal risk level is min(10, max strategy concentration percent / 10);
the returned assessment follows the buckets at 8, 5 and 3 with the critical,
high, moderate and low messages (the low bucket with empty concerns and
recommendations); and a concern naming the strategy and its percentage is
generated for every strategy whose share strictly exceeds 40 percent. -/
theorem concentration_mode_buckets_and_concerns
    (ps : List (Option ConcPosition)) (hne : ps ≠ []) :
    (8 ≤ min 10 (maxConcentration ps / 10) →
      assess_portfolio_risk ps
        = { alert_level := 8, message := "Critical concentration risk",
            concerns := concentrationConcerns ps,
            recommendations := ["Reduce position concentration",
                                "Diversify across strategies"] })
    ∧ (5 ≤ min 10 (maxConcentration ps / 10) →
        min 10 (maxConcentration ps / 10) < 8 →
      assess_portfolio_risk ps
        = { alert_level := 5, message := "High concentration risk",
            concerns := concentrationConcerns ps,
            recommendations := ["Consider diversifying positions"] })
    ∧ (3 ≤ min 10 (maxConcentration ps / 10) →
        min 10 (maxConcentration ps / 10) < 5 →
      assess_portfolio_risk ps
        = { alert_level := 3, message := "Moderate concentration risk",
            concerns := concentrationConcerns ps,
            recommendations := ["Monitor position concentration"] })
    ∧ (min 10 (maxConcentration ps / 10) < 3 →
      assess_portfolio_risk ps
        = { alert_level := 0, message := "Low risk portfolio",
            concerns := [], recommendations := [] })
    ∧ (∀ s v, (s, v) ∈ strategyConcentration ps →
        40 < concPct (totalInvested ps) v →
        Concern.highConcentration s (concPct (totalInvested ps) v)
          ∈ (assess_portfolio_risk ps).concerns) := by
  rcases ps with _ | ⟨p0, ps0⟩
  · exact absurd rfl hne
  refine ⟨?_, ?_, ?_, ?_, ?_⟩
  · intro h8
    simp only [assess_portfolio_risk]
    rw [if_pos h8]
  · intro h5 h8
    simp only [assess_portfolio_risk]
    rw [if_neg (not_le.mpr h8), if_pos h5]
  · intro h3 h5
    have h8 : min 10 (maxConcentration (p0 :: ps0) / 10) < 8 :=
      lt_trans h5 (by norm_num)
    simp only [assess_portfolio_risk]
    rw [if_neg (not_le.mpr h8), if_neg (not_le.mpr h5), if_pos h3]
  · intro h3
    have h5 : min 10 (maxConcentration (p0 :: ps0) / 10) < 5 :=
      lt_trans h3 (by norm_num)
    have h8 : min 10 (maxConcentration (p0 :: ps0) / 10) < 8 :=
      lt_trans h3 (by norm_num)
    simp only [assess_portfolio_risk]
    rw [if_neg (not_le.mpr h8), if_neg (not_le.mpr h5), if_neg (not_le.mpr h3)]
  · intro s v hmem h40
    have hle : concPct (totalInvested (p0 :: ps0)) v
        ≤ maxConcentration (p0 :: ps0) := by
      have h := mem_le_foldl_max
        (fun e => concPct (totalInvested (p0 :: ps0)) e.2)
        (strategyConcentration (p0 :: ps0)) 0 (s, v) hmem
      exact h
    have h4 : (4 : ℝ) ≤ min 10 (maxConcentration (p0 :: ps0) / 10) := by
      refine le_min (by norm_num) ?_
      have h40m : (40 : ℝ) < maxConcentration (p0 :: ps0) :=
        lt_of_lt_of_le h40 hle
      linarith
    have hmem2 : Concern.highConcentration s
        (concPct (totalInvested (p0 :: ps0)) v)
        ∈ concentrationConcerns (p0 :: ps0) := by
      rw [concentrationConcerns]
      exact List.mem_filterMap.mpr ⟨(s, v), hmem, by rw [if_pos h40]⟩
    by_cases h8 : 8 ≤ min 10 (maxConcentration (p0 :: ps0) / 10)
    · simp only [assess_portfolio_risk]
      rw [if_pos h8]
      exact hmem2
    · by_cases h5 : 5 ≤ min 10 (maxConcentration (p0 :: ps0) / 10)
      · simp only [assess_portfolio_risk]
        rw [if_neg h8, if_pos h5]
        exact hmem2
      · have h3 : 3 ≤ min 10 (maxConcentration (p0 :: ps0) / 10) :=
          le_trans (by norm_num) h4
        simp only [assess_portfolio_risk]
        rw [if_neg h8, if_neg h5, if_pos h3]
        exact hmem2

/-- One theta_decay position: quantity 1, entry price 10. -/
def thetaPosition : ConcPosition :=
  { quantity := some 1, entry_price := some 10,
    strategy_type := some "theta_decay" }

/-- Five positions all tagged theta_decay: 100 percent concentration. -/
def fiveThetaPositions : List (Option ConcPosition) :=
  [some thetaPosition, some thetaPosition, some thetaPosition,
   some thetaPosition, some thetaPosition]

theorem concentration_mode_buckets_and_concerns_witness :
    fiveThetaPositions ≠ []
    ∧ (assess_portfolio_risk fiveThetaPositions).alert_level = 8
    ∧ Concern.highConcentration "theta_decay" 100
        ∈ (assess_portfolio_risk fiveThetaPositions).concerns := by
  have hne : fiveThetaPositions ≠ [] := by
    simp [fiveThetaPositions]
  have h := concentration_mode_buckets_and_concerns fiveThetaPositions hne
  have htot : totalInvested fiveThetaPositions = 5000 := by
    norm_num [totalInvested, realPositions, posValue, thetaPosition,
      fiveThetaPositions, List.filterMap_cons, List.filterMap_nil]
  have hsc : strategyConcentration fiveThetaPositions
      = [("theta_decay", 5000)] := by
    norm_num [strategyConcentration, realPositions, addStrategy, posStrategy,
      posValue, thetaPosition, fiveThetaPositions, List.filterMap_cons,
      List.filterMap_nil, List.foldl_cons, List.foldl_nil]
  have hpct : concPct (totalInvested fiveThetaPositions) 5000 = 100 := by
    rw [htot, concPct, if_pos (by norm_num : (0 : ℝ) < 5000)]
    norm_num
  have hmax : maxConcentration fiveThetaPositions = 100 := by
    rw [maxConcentration, hsc]
    simp [hpct]
  have h8 : 8 ≤ min 10 (maxConcentration fiveThetaPositions / 10) := by
    rw [hmax]
    norm_num
  have halert := h.1 h8
  refine ⟨hne, by rw [halert], ?_⟩
  have hm := h.2.2.2.2 "theta_decay" 5000 (by rw [hsc]; simp)
    (by rw [hpct]; norm_num)
  rw [hpct] at hm
  exact hm

/-- Risk alert severity levels (RiskLevel Enum). -/
inductive RiskLevel where
  | NORMAL
  | CAUTION
  | WARNING
  | CRITICAL

/-- The integer Enum value of a severity. -/
def RiskLevel.value : RiskLevel → ℕ
  | .NORMAL => 0
  | .CAUTION => 1
  | .WARNING => 2
  | .CRITICAL => 3

/-- RiskAlert dataclass, the fields the combiner reads (the timestamp plays
no role in the combination). -/
structure RiskAlert where
  level : RiskLevel
  message : String
  triggered_by : String
  actions : List String
  confidence : ℝ

/-- Qualitative RiskAssessment record (deepseek_analyst dataclass). -/
structure RiskAssessment where
  alert_level : ℕ
  message : String
  concerns : List String
  recommendations : List String

/-- _combine_risk_assessments: start from the qualitative assessment, raise
the alert level past any higher automated severity, append each alert message
and action list, then deduplicate with list(set(...)), modelled by dedup
(same members, no duplicates; the set order is not significant). -/
def combine_risk_assessments (ds : RiskAssessment)
    (alerts : List RiskAlert) : RiskAssessment :=
  { alert_level := alerts.foldl
      (fun l a => if l < a.level.value then a.level.value else l) ds.alert_level
    message := ds.message
    concerns :=
      (alerts.foldl (fun acc a => acc ++ [a.message]) ds.concerns).dedup
    recommendations :=
      (alerts.foldl (fun acc a => acc ++ a.actions) ds.recommendations).dedup }

lemma foldl_if_max (alerts : List RiskAlert) :
    ∀ init : ℕ, alerts.foldl
        (fun l a => if l < a.level.value then a.level.value else l) init
      = max init ((alerts.map fun a => a.level.value).foldr max 0) := by
  induction alerts with
  | nil => intro init; simp
  | cons a as ih =>
    intro init
    simp only [List.foldl_cons, List.map_cons, List.foldr_cons]
    rw [ih]
    have hif : (if init < a.level.value then a.level.value else init)
        = max init a.level.value := by
      by_cases h : init < a.level.value
      · rw [if_pos h]; exact (max_eq_right h.le).symm
      · rw [if_neg h]; exact (max_eq_left (le_of_not_lt h)).symm
    rw [hif, max_assoc]

lemma foldl_append_msgs (alerts : List RiskAlert) :
    ∀ init : List String,
      alerts.foldl (fun acc a => acc ++ [a.message]) init
        = init ++ alerts.map (fun a => a.message) := by
  induction alerts with
  | nil => intro init; simp
  | cons a as ih =>
    intro init
    simp [ih, List.append_assoc]

lemma foldl_append_actions (alerts : List RiskAlert) :
    ∀ init : List String,
      alerts.foldl (fun acc a => acc ++ a.actions) init
        = init ++ (alerts.map (fun a => a.actions)).flatten := by
  induction alerts with
  | nil => intro init; simp
  | cons a as ih =>
    intro init
    simp [ih, List.append_assoc]

/-- C8: the combined assessment's alert level is the maximum of the
qualitative level and the highest automated severity (NORMAL 0, CAUTION 1,
WARNING 2, CRITICAL 3); its concerns are the duplicate-free union of the
qualitative concerns and the alert messages, and its recommendations the
duplicate-free union of the qualitative recommendations and the alert
actions (membership characterised, order not significant). -/
theorem combine_assessments_max_and_union (ds : RiskAssessment)
    (alerts : List RiskAlert) :
    (combine_risk_assessments ds alerts).alert_level
      = max ds.alert_level ((alerts.map fun a => a.level.value).foldr max 0)
    ∧ (∀ c, c ∈ (combine_risk_assessments ds alerts).concerns ↔
        c ∈ ds.concerns ∨ ∃ a ∈ alerts, a.message = c)
    ∧ (combine_risk_assessments ds alerts).concerns.Nodup
    ∧ (∀ x, x ∈ (combine_risk_assessments ds alerts).recommendations ↔
        x ∈ ds.recommendations ∨ ∃ a ∈ alerts, x ∈ a.actions)
    ∧ (combine_risk_assessments ds alerts).recommendations.Nodup := by
  refine ⟨?_, ?_, ?_, ?_, ?_⟩
  · exact foldl_if_max alerts ds.alert_level
  · intro c
    simp [combine_risk_assessments, foldl_append_msgs, List.mem_dedup]
  · exact List.nodup_dedup _
  · intro x
    simp [combine_risk_assessments, foldl_append_actions, List.mem_dedup]
  · exact List.nodup_dedup _
